import Mathlib

/-!
Verification of the fs-hasher daemon core against its design document.

The Rust sources are shallowly embedded:
* `PathBuf` is modelled as a list of normal path components (`FsPath`),
  so that `Path::starts_with` / `strip_prefix` become list-prefix
  operations, matching Rust's component-wise semantics, and
  `root.join(path)` becomes list append.
* `HashMap` is modelled as an association list with the usual
  lookup/insert/remove operations (`insert` replaces an existing key,
  as `HashMap::insert` does).
* The external effects (the `ignore` crate's directory walker, `globset`
  compilation and matching, `std::fs::read`, and the `xxhash_rust`
  hash functions, none of which are code of this repository) are
  abstracted into an environment record `FsEnv`; every theorem holds
  for an arbitrary environment.
* Functions that mutate through `&mut` return the updated value
  explicitly; fallible functions return `Except`.  A function that
  mutates state and can fail returns the pair of its `Except` result
  and the state left behind, so that partial mutation before an error
  is modelled faithfully.
-/

namespace FsHasher

/-- A filesystem path, as its list of normal components
(Rust `PathBuf` compared with component semantics). -/
abbrev FsPath := List String

/-! ### Association-list maps (model of `std::collections::HashMap`) -/

/-- `HashMap::get`. -/
def alGet [DecidableEq α] : List (α × β) → α → Option β
  | [], _ => none
  | (k, v) :: rest, key => if k = key then some v else alGet rest key

/-- `HashMap::remove` (drops the entry for the key, if any). -/
def alRemove [DecidableEq α] (m : List (α × β)) (key : α) : List (α × β) :=
  m.filter (fun kv => kv.1 ≠ key)

/-- `HashMap::insert` (replaces any existing entry for the key). -/
def alInsert [DecidableEq α] (m : List (α × β)) (key : α) (v : β) : List (α × β) :=
  (key, v) :: alRemove m key

/-- `HashMap::contains_key`. -/
def alContains [DecidableEq α] (m : List (α × β)) (key : α) : Bool :=
  (alGet m key).isSome

theorem alGet_alRemove [DecidableEq α] (m : List (α × β)) (key k : α) :
    alGet (alRemove m key) k = if k = key then none else alGet m k := by
  induction m with
  | nil => simp [alRemove, alGet]
  | cons hd tl ih =>
    obtain ⟨k0, v0⟩ := hd
    by_cases hk : k0 = key <;> by_cases h2 : k = key <;>
      by_cases h3 : k0 = k <;>
      simp_all [alRemove, alGet, List.filter_cons]

theorem alGet_alInsert [DecidableEq α] (m : List (α × β)) (key k : α) (v : β) :
    alGet (alInsert m key v) k = if k = key then some v else alGet m k := by
  simp only [alInsert, alGet]
  by_cases h : key = k
  · simp [h]
  · have h' : ¬ k = key := fun hh => h hh.symm
    simp [h, h', alGet_alRemove]

/-! ### Hasher (`src/fswatchd/src/hasher.rs`, `src/packages/daemon/src/hasher.rs`) -/

/-- `u64::to_le_bytes`: the 8 little-endian bytes of a 64-bit value. -/
def toLEBytes (n : Nat) : List Nat :=
  (List.range 8).map (fun i => n / 256 ^ i % 256)

/-- The ascending sort performed by `Vec::<u64>::sort()`. -/
def sortHashes (hashes : List Nat) : List Nat :=
  hashes.mergeSort (fun a b => decide (a ≤ b))

/-- `aggregate_hashes` from `hasher.rs`: sort the per-file hashes
ascending, serialize each as 8 little-endian bytes into one buffer,
and hash that buffer with `xxh3_64` (external crate function,
abstracted as the parameter `xxh3`). -/
def aggregate_hashes (xxh3 : List Nat → Nat) (hashes : List Nat) : Nat :=
  xxh3 ((sortHashes hashes).flatMap toLEBytes)

theorem sortHashes_eq_of_perm {v p : List Nat} (h : v.Perm p) :
    sortHashes v = sortHashes p := by
  have hsort : ∀ l : List Nat,
      (l.mergeSort (fun a b => decide (a ≤ b))).Pairwise (fun a b : Nat => a ≤ b) := by
    intro l
    have := @List.sorted_mergeSort Nat (fun a b => decide (a ≤ b))
      (fun a b c hab hbc => by
        simp only [decide_eq_true_eq] at *; omega)
      (fun a b => by
        simp only [Bool.or_eq_true, decide_eq_true_eq]; omega) l
    exact List.Pairwise.imp (fun hab => by simpa using hab) this
  apply List.eq_of_perm_of_sorted (r := fun a b : Nat => a ≤ b)
  · exact ((List.mergeSort_perm v _).trans h).trans (List.mergeSort_perm p _).symm
  · exact hsort v
  · exact hsort p

/-- C1: the aggregate digest is invariant under permutation of the
per-file hash vector, for every choice of the underlying 64-bit hash
function: `aggregate_hashes` sorts the vector before serializing, so
any two enumeration orders serialize identically. -/
theorem aggregate_hashes_perm_invariant (xxh3 : List Nat → Nat)
    (v p : List Nat) (h : v.Perm p) :
    aggregate_hashes xxh3 v = aggregate_hashes xxh3 p := by
  unfold aggregate_hashes
  rw [sortHashes_eq_of_perm h]

/-- Witness for C1 at a concrete permutation. -/
theorem aggregate_hashes_perm_invariant_witness :
    aggregate_hashes List.sum [3, 1, 2] = aggregate_hashes List.sum [2, 3, 1] :=
  aggregate_hashes_perm_invariant List.sum [3, 1, 2] [2, 3, 1] (by decide)

/-! ### File enumerator (`list_files` in `src/fswatchd/src/hasher.rs`) -/

/-- One entry produced by the `ignore` crate's directory walker:
its absolute path and whether it is a regular file. -/
structure WalkEntry where
  path : FsPath
  isFile : Bool
deriving DecidableEq, Repr

/-- The external effects used by the hashing engine, abstracted:
the recursive directory walk, glob compilation (`none` models an
ill-formed pattern) and matching, file reads (`Except.error` models an
`std::io::Error`, carried as its message), and the 64-bit content hash. -/
structure FsEnv where
  walk : FsPath → List WalkEntry
  compileGlob : String → Option (FsPath → Bool)
  readFile : FsPath → Except String (List Nat)
  xxh3 : List Nat → Nat

/-- `Path::strip_prefix`: the suffix of `p` after the component-wise
prefix `pre`, or `none` when `pre` is not a prefix of `p`. -/
def stripPre : FsPath → FsPath → Option FsPath
  | [], p => some p
  | _ :: _, [] => none
  | a :: as, b :: bs => if a = b then stripPre as bs else none

/-- The body of `list_files`'s walker loop: keep an entry iff it is a
regular file whose path lies under `full` and whose path relative to
`full` matches the compiled glob. -/
def matchEntry (full : FsPath) (m : FsPath → Bool) (e : WalkEntry) : Option FsPath :=
  if e.isFile then
    match stripPre full e.path with
    | some rel => if m rel then some e.path else none
    | none => none
  else none

/-- The matching regular files beneath `full`, in walker order. -/
def matchingFiles (env : FsEnv) (m : FsPath → Bool) (full : FsPath) : List FsPath :=
  (env.walk full).filterMap (matchEntry full m)

/-- Error type `HashError` from `src/fswatchd/src/hasher.rs`. -/
inductive HashError where
  | GlobError (msg : String)
  | ReadFile (path : FsPath) (cause : String)
  | NoFilesMatched
  | Watch (msg : String)
deriving DecidableEq, Repr

/-- `list_files` from `src/fswatchd/src/hasher.rs`: join `root` and
`path`, compile the glob, collect matching regular files in walker
order, and fail with `NoFilesMatched` when no file matched. -/
def list_files (env : FsEnv) (root : FsPath) (path : FsPath) (globPat : String) :
    Except HashError (List FsPath) :=
  match env.compileGlob globPat with
  | none => .error (.GlobError globPat)
  | some m =>
    if (matchingFiles env m (root ++ path)).isEmpty then .error .NoFilesMatched
    else .ok (matchingFiles env m (root ++ path))

/-- C7: given a well-formed glob, `list_files` fails with
`NoFilesMatched` exactly when the set of matching regular files
beneath `root/path` is empty, and a successful result is never the
empty list. -/
theorem list_files_noFilesMatched_iff_empty (env : FsEnv)
    (root path : FsPath) (globPat : String) (m : FsPath → Bool)
    (hglob : env.compileGlob globPat = some m) :
    (list_files env root path globPat = .error .NoFilesMatched ↔
      matchingFiles env m (root ++ path) = []) ∧
    ∀ l, list_files env root path globPat = .ok l → l ≠ [] := by
  have hred : list_files env root path globPat =
      if (matchingFiles env m (root ++ path)).isEmpty then .error .NoFilesMatched
      else .ok (matchingFiles env m (root ++ path)) := by
    unfold list_files
    rw [hglob]
  rw [hred]
  by_cases h : matchingFiles env m (root ++ path) = []
  · rw [if_pos (by simp [h])]
    simp [h]
  · rw [if_neg (by simp [h])]
    refine ⟨⟨fun hc => Except.noConfusion hc, fun hc => absurd hc h⟩, ?_⟩
    intro l hl
    cases hl
    exact h

/-- Witness for C7: with an empty walk the call fails with
`NoFilesMatched`; with one matching file the successful result is
non-empty. -/
theorem list_files_noFilesMatched_iff_empty_witness :
    list_files
        ⟨fun _ => [], fun _ => some (fun _ => true), fun _ => .ok [], fun _ => 0⟩
        ["r"] [] "*" = .error .NoFilesMatched ∧
    ([["r", "a.rs"]] : List FsPath) ≠ [] :=
  ⟨(list_files_noFilesMatched_iff_empty
      ⟨fun _ => [], fun _ => some (fun _ => true), fun _ => .ok [], fun _ => 0⟩
      ["r"] [] "*" (fun _ => true) rfl).1.mpr rfl,
    (list_files_noFilesMatched_iff_empty
      ⟨fun _ => [⟨["r", "a.rs"], true⟩], fun _ => some (fun _ => true),
        fun _ => .ok [], fun _ => 0⟩
      ["r"] [] "*" (fun _ => true) rfl).2 [["r", "a.rs"]] rfl⟩

/-! ### Byte-lexicographic path order (for the ordering claim) -/

/-- UTF-8 encoding of a Unicode scalar value, as its list of bytes. -/
def utf8Bytes (c : Nat) : List Nat :=
  if c < 128 then [c]
  else if c < 2048 then [192 + c / 64, 128 + c % 64]
  else if c < 65536 then [224 + c / 4096, 128 + c / 64 % 64, 128 + c % 64]
  else [240 + c / 262144, 128 + c / 4096 % 64, 128 + c / 64 % 64, 128 + c % 64]

/-- UTF-8 bytes of a string (`str::as_bytes`). -/
def strBytes (s : String) : List Nat :=
  s.data.flatMap (fun ch => utf8Bytes ch.toNat)

/-- UTF-8 bytes of the absolute path denoted by a component list
(each component preceded by the byte of `/`). -/
def pathBytes (p : FsPath) : List Nat :=
  p.flatMap (fun c => 47 :: strBytes c)

/-- Byte-lexicographic `≤` on byte lists. -/
def bytesLe : List Nat → List Nat → Bool
  | [], _ => true
  | _ :: _, [] => false
  | a :: as, b :: bs => if a < b then true else if a = b then bytesLe as bs else false

/-- A list of paths in ascending byte-lexicographic order. -/
def sortedByteLex (l : List FsPath) : Prop :=
  l.Pairwise (fun a b => bytesLe (pathBytes a) (pathBytes b) = true)

/-- A walk environment whose walker enumerates `/r/b` before `/r/a`
(walker order is an OS artifact and need not be sorted). -/
def unsortedEnv : FsEnv :=
  ⟨fun _ => [⟨["r", "b"], true⟩, ⟨["r", "a"], true⟩],
    fun _ => some (fun _ => true), fun _ => .ok [], fun _ => 0⟩

/-- Counterexample to C8: `list_files` performs no sort, so with a
walker that enumerates `/r/b` before `/r/a` it succeeds with an
unsorted vector. -/
theorem list_files_not_sorted :
    list_files unsortedEnv ["r"] [] "*" = .ok [["r", "b"], ["r", "a"]] ∧
    ¬ sortedByteLex [["r", "b"], ["r", "a"]] := by
  constructor
  · rfl
  · unfold sortedByteLex
    decide

/-- C8 amended: `list_files` returns the matching files exactly in
walker enumeration order — it never sorts them.  (Stability of the
aggregate digest is instead ensured by `aggregate_hashes` sorting the
per-file hash vector.) -/
theorem list_files_walker_order (env : FsEnv)
    (root path : FsPath) (globPat : String) (m : FsPath → Bool)
    (hglob : env.compileGlob globPat = some m)
    (l : List FsPath) (h : list_files env root path globPat = .ok l) :
    l = matchingFiles env m (root ++ path) := by
  have hred : list_files env root path globPat =
      if (matchingFiles env m (root ++ path)).isEmpty then .error .NoFilesMatched
      else .ok (matchingFiles env m (root ++ path)) := by
    unfold list_files
    rw [hglob]
  rw [hred] at h
  by_cases he : (matchingFiles env m (root ++ path)).isEmpty
  · rw [if_pos he] at h
    cases h
  · rw [if_neg he] at h
    cases h
    rfl

/-- Witness for the amended C8 at a concrete environment. -/
theorem list_files_walker_order_witness :
    list_files unsortedEnv ["r"] [] "*" = .ok [["r", "b"], ["r", "a"]] ∧
    [["r", "b"], ["r", "a"]] = matchingFiles unsortedEnv (fun _ => true) (["r"] ++ []) :=
  ⟨rfl, list_files_walker_order unsortedEnv ["r"] [] "*" (fun _ => true) rfl
    [["r", "b"], ["r", "a"]] rfl⟩

/-! ### Hash service (`src/packages/daemon/src/hash_service.rs`;
the `fswatchd` crate uses the same `hash_with_cache`, whose copy is
not under `src/`) -/

/-- `HashResult` from `hash_service.rs`. -/
structure HashResult where
  hash : Nat
  file_count : Nat
deriving DecidableEq, Repr

/-- The per-file cache (`PerFileCache`): `HashMap<PathBuf, u64>`. -/
abbrev FileCache := List (FsPath × Nat)

/-- The per-file loop of `hash_with_cache`: look each file up in the
cache; on a miss read and hash it and insert the result; a read
failure aborts with `ReadFile`, leaving the cache as mutated so far
(`cache` is behind `&mut`). -/
def hashFiles (env : FsEnv) (cache : FileCache) :
    List FsPath → List Nat → (Except HashError (List Nat)) × FileCache
  | [], acc => (.ok acc.reverse, cache)
  | f :: rest, acc =>
    match alGet cache f with
    | some h => hashFiles env cache rest (h :: acc)
    | none =>
      match env.readFile f with
      | .ok bytes => hashFiles env (alInsert cache f (env.xxh3 bytes)) rest (env.xxh3 bytes :: acc)
      | .error e => (.error (.ReadFile f e), cache)

/-- `hash_with_cache` from `hash_service.rs`: enumerate, hash each
file through the per-file cache, aggregate.  The mutated cache is
returned alongside the result, also on failure. -/
def hash_with_cache (env : FsEnv) (cache : FileCache)
    (root : FsPath) (path : FsPath) (glob : String) :
    (Except HashError HashResult) × FileCache :=
  match list_files env root path glob with
  | .error e => (.error e, cache)
  | .ok files =>
    match hashFiles env cache files [] with
    | (.ok hashes, cache') =>
      (.ok ⟨aggregate_hashes env.xxh3 hashes, files.length⟩, cache')
    | (.error e, cache') => (.error e, cache')

/-! ### Daemon state (`src/fswatchd/src/daemon.rs`) -/

/-- `GlobKey`: the key of the per-query result cache. -/
structure GlobKey where
  root : FsPath
  path : FsPath
  glob : String
deriving DecidableEq, Repr

/-- `DaemonState`: per-file cache, per-query result cache, and the
active watchers keyed by root (the `RecommendedWatcher` handle is
opaque and modelled as `Unit`). -/
structure DaemonState where
  file_cache : FileCache
  result_cache : List (GlobKey × HashResult)
  root_watchers : List (FsPath × Unit)
deriving DecidableEq, Repr

/-- `DaemonState::new()`. -/
def DaemonState.new : DaemonState := ⟨[], [], []⟩

/-- The retention predicate of `invalidate_file`'s result-cache sweep:
keep a key iff its `root/path` is NOT a component-wise prefix of the
changed path (the negation of Rust's `path.starts_with(key.root.join(&key.path))`). -/
def rcKept (path : FsPath) (key : GlobKey) : Bool :=
  !((key.root ++ key.path).isPrefixOf path)

/-- `invalidate_file` from `daemon.rs`: drop the per-file cache entry
for `path`, and drop every result-cache entry whose `root/path`
(`key.root.join(&key.path)`) is a component-wise prefix of `path`
(Rust `path.starts_with(...)`). -/
def invalidate_file (state : DaemonState) (path : FsPath) : DaemonState :=
  { state with
    file_cache := alRemove state.file_cache path,
    result_cache := state.result_cache.filter (fun kv => rcKept path kv.1) }

/-- `start_watching` from `daemon.rs`: no-op when a watcher for the
root exists or when no event sink is supplied; otherwise create and
start an OS watcher (the `notify` crate, external — abstracted as
`install`, whose error message covers both creation and `watch`
failure) and record its handle. -/
def start_watching (install : FsPath → Except String Unit)
    (state : DaemonState) (root : FsPath) (event_tx : Option Unit) :
    Except HashError DaemonState :=
  if alContains state.root_watchers root then .ok state
  else
    match event_tx with
    | none => .ok state
    | some _ =>
      match install root with
      | .ok _ => .ok { state with root_watchers := alInsert state.root_watchers root () }
      | .error e => .error (.Watch e)

/-- `ensure_watching` from `daemon.rs`: delegates to `start_watching`. -/
def ensure_watching (install : FsPath → Except String Unit)
    (state : DaemonState) (root : FsPath) (event_tx : Option Unit) :
    Except HashError DaemonState :=
  start_watching install state root event_tx

/-- `stop_watching` from `daemon.rs`: remove the watcher handle for
the root (dropping it) and report whether one was present. -/
def stop_watching (state : DaemonState) (root : FsPath) : Bool × DaemonState :=
  (alContains state.root_watchers root,
    { state with root_watchers := alRemove state.root_watchers root })

/-- `hash` from `daemon.rs`: optionally install a watcher, then serve
from the result cache on a hit; on a miss compute via
`hash_with_cache` (mutating the per-file cache even on failure) and
record the result in the result cache.  The daemon state left behind
is returned alongside the result (`state` is behind `&mut`). -/
def hash (env : FsEnv) (install : FsPath → Except String Unit)
    (state : DaemonState) (root : FsPath) (path : FsPath) (glob : String)
    (persistent : Bool) (event_tx : Option Unit) :
    (Except HashError HashResult) × DaemonState :=
  match (if persistent then start_watching install state root event_tx else .ok state) with
  | .error e => (.error e, state)
  | .ok s1 =>
    match alGet s1.result_cache ⟨root, path, glob⟩ with
    | some result => (.ok result, s1)
    | none =>
      match hash_with_cache env s1.file_cache root path glob with
      | (.ok result, fc) =>
        (.ok result,
          { s1 with
            file_cache := fc,
            result_cache := alInsert s1.result_cache ⟨root, path, glob⟩ result })
      | (.error e, fc) => (.error e, { s1 with file_cache := fc })

/-! ### Invalidation (claim C3) -/

theorem alGet_filterKey [DecidableEq α] (m : List (α × β)) (q : α → Bool) (k : α) :
    alGet (m.filter (fun kv => q kv.1)) k = if q k then alGet m k else none := by
  induction m with
  | nil => by_cases h : q k <;> simp [alGet, h]
  | cons hd tl ih =>
    obtain ⟨k0, v0⟩ := hd
    by_cases h0 : q k0 <;> by_cases hk : k0 = k <;>
      simp_all [alGet, List.filter_cons]

/-- C3: `invalidate_file` removes the per-file cache entry for the
changed path, removes exactly those result-cache keys whose
`root/path` is a component-wise prefix of the changed path, and leaves
everything else (including the watcher map) unchanged. -/
theorem invalidate_file_spec (s : DaemonState) (p : FsPath) :
    alGet (invalidate_file s p).file_cache p = none ∧
    (∀ k, k ≠ p → alGet (invalidate_file s p).file_cache k = alGet s.file_cache k) ∧
    (∀ key : GlobKey, (key.root ++ key.path) <+: p →
      alGet (invalidate_file s p).result_cache key = none) ∧
    (∀ key : GlobKey, ¬ (key.root ++ key.path) <+: p →
      alGet (invalidate_file s p).result_cache key = alGet s.result_cache key) ∧
    (invalidate_file s p).root_watchers = s.root_watchers := by
  refine ⟨?_, ?_, ?_, ?_, rfl⟩
  · rw [show (invalidate_file s p).file_cache = alRemove s.file_cache p from rfl,
      alGet_alRemove]
    simp
  · intro k hk
    rw [show (invalidate_file s p).file_cache = alRemove s.file_cache p from rfl,
      alGet_alRemove]
    simp [hk]
  · intro key hkey
    have hb : List.isPrefixOf (key.root ++ key.path) p = true := by
      rw [ List.isPrefixOf_iff_prefix]
      exact hkey
    rw [show (invalidate_file s p).result_cache =
        s.result_cache.filter (fun kv => rcKept p kv.1) from rfl,
      alGet_filterKey]
    simp [rcKept, hb]
  · intro key hkey
    have hb : List.isPrefixOf (key.root ++ key.path) p = false := by
      rw [Bool.eq_false_iff]
      intro hcon
      rw [ List.isPrefixOf_iff_prefix] at hcon
      exact hkey hcon
    rw [show (invalidate_file s p).result_cache =
        s.result_cache.filter (fun kv => rcKept p kv.1) from rfl,
      alGet_filterKey]
    simp [rcKept, hb]

/-- Witness for C3 at a concrete state: invalidating `/a/b/c` drops
the entry keyed by `/a` + `b` (a component-wise prefix) and keeps the
entry keyed by `/a` + `bc` (not a prefix: `/a/b` vs `/a/bc`), and
drops the per-file entry for `/a/b/c` while keeping `/a/x`. -/
theorem invalidate_file_spec_witness :
    alGet (invalidate_file
        ⟨[(["a", "b", "c"], 7), (["a", "x"], 8)],
          [(⟨["a"], ["b"], "*"⟩, ⟨5, 1⟩), (⟨["a"], ["bc"], "*"⟩, ⟨6, 1⟩)],
          []⟩
        ["a", "b", "c"]).file_cache ["a", "b", "c"] = none ∧
    alGet (invalidate_file
        ⟨[(["a", "b", "c"], 7), (["a", "x"], 8)],
          [(⟨["a"], ["b"], "*"⟩, ⟨5, 1⟩), (⟨["a"], ["bc"], "*"⟩, ⟨6, 1⟩)],
          []⟩
        ["a", "b", "c"]).file_cache ["a", "x"] = some 8 ∧
    alGet (invalidate_file
        ⟨[(["a", "b", "c"], 7), (["a", "x"], 8)],
          [(⟨["a"], ["b"], "*"⟩, ⟨5, 1⟩), (⟨["a"], ["bc"], "*"⟩, ⟨6, 1⟩)],
          []⟩
        ["a", "b", "c"]).result_cache ⟨["a"], ["b"], "*"⟩ = none ∧
    alGet (invalidate_file
        ⟨[(["a", "b", "c"], 7), (["a", "x"], 8)],
          [(⟨["a"], ["b"], "*"⟩, ⟨5, 1⟩), (⟨["a"], ["bc"], "*"⟩, ⟨6, 1⟩)],
          []⟩
        ["a", "b", "c"]).result_cache ⟨["a"], ["bc"], "*"⟩ = some ⟨6, 1⟩ := by
  refine ⟨(invalidate_file_spec _ _).1, ?_, ?_, ?_⟩
  · rw [(invalidate_file_spec _ _).2.1 ["a", "x"] (by decide)]
    rfl
  · exact (invalidate_file_spec _ _).2.2.1 ⟨["a"], ["b"], "*"⟩ (by decide)
  · rw [(invalidate_file_spec _ _).2.2.2.1 ⟨["a"], ["bc"], "*"⟩ (by decide)]
    rfl

/-! ### Watcher lifecycle (claims C9 and C10) -/

/-- Number of entries a map holds for a key. -/
def alCount [DecidableEq α] (m : List (α × β)) (key : α) : Nat :=
  (m.filter (fun kv => kv.1 = key)).length

theorem alCount_alRemove_self [DecidableEq α] (m : List (α × β)) (key : α) :
    alCount (alRemove m key) key = 0 := by
  unfold alCount
  rw [List.length_eq_zero, List.filter_eq_nil_iff]
  intro a ha
  rw [show alRemove m key = m.filter (fun kv => kv.1 ≠ key) from rfl, List.mem_filter] at ha
  simp only [decide_eq_true_eq]
  simpa using ha.2

theorem alCount_alInsert_self [DecidableEq α] (m : List (α × β)) (key : α) (v : β) :
    alCount (alInsert m key v) key = 1 := by
  have hz := alCount_alRemove_self m key
  unfold alCount at hz ⊢
  unfold alInsert
  rw [List.filter_cons]
  simp [hz]

/-- `k` successive `ensure_watching` calls for one root (the state is
kept unchanged when a call fails, as the Rust caller's `&mut` state is
untouched on error). -/
def ensureIter (install : FsPath → Except String Unit) (root : FsPath)
    (event_tx : Option Unit) : Nat → DaemonState → DaemonState
  | 0, s => s
  | k + 1, s =>
    match ensure_watching install s root event_tx with
    | .ok s' => ensureIter install root event_tx k s'
    | .error _ => ensureIter install root event_tx k s

theorem ensure_watching_count_le (install : FsPath → Except String Unit)
    (s : DaemonState) (root : FsPath) (event_tx : Option Unit) (s' : DaemonState)
    (hok : ensure_watching install s root event_tx = .ok s')
    (hle : alCount s.root_watchers root ≤ 1) :
    alCount s'.root_watchers root ≤ 1 := by
  unfold ensure_watching start_watching at hok
  by_cases hc : alContains s.root_watchers root
  · rw [if_pos hc] at hok
    cases hok
    exact hle
  · rw [if_neg hc] at hok
    cases event_tx with
    | none =>
      cases hok
      exact hle
    | some u =>
      match hin : install root with
      | .ok _ =>
        rw [hin] at hok
        cases hok
        simpa using Nat.le_of_eq (alCount_alInsert_self s.root_watchers root ())
      | .error e =>
        rw [hin] at hok
        cases hok

/-- C9: `ensure_watching` is idempotent per root — when a watcher for
the root is already installed it returns `Ok` and leaves the daemon
state unchanged — and any number of successive calls for one root
leaves at most one watcher entry for it. -/
theorem ensure_watching_idempotent (install : FsPath → Except String Unit)
    (s : DaemonState) (root : FsPath) (event_tx : Option Unit) :
    (alContains s.root_watchers root = true →
      ensure_watching install s root event_tx = .ok s) ∧
    (alCount s.root_watchers root ≤ 1 → ∀ k,
      alCount (ensureIter install root event_tx k s).root_watchers root ≤ 1) := by
  constructor
  · intro hc
    unfold ensure_watching start_watching
    rw [if_pos hc]
  · intro hle k
    induction k generalizing s with
    | zero => exact hle
    | succ k ih =>
      unfold ensureIter
      match hres : ensure_watching install s root event_tx with
      | .ok s' => exact ih s' (ensure_watching_count_le install s root event_tx s' hres hle)
      | .error e => exact ih s hle

/-- Witness for C9: a root already watched is left untouched, and
five calls starting from a fresh state leave one watcher entry. -/
theorem ensure_watching_idempotent_witness :
    ensure_watching (fun _ => .ok ()) ⟨[], [], [(["r"], ())]⟩ ["r"] (some ()) =
      .ok ⟨[], [], [(["r"], ())]⟩ ∧
    alCount (ensureIter (fun _ => .ok ()) ["r"] (some ()) 5 DaemonState.new).root_watchers
      ["r"] ≤ 1 :=
  ⟨(ensure_watching_idempotent (fun _ => .ok ()) ⟨[], [], [(["r"], ())]⟩ ["r"]
      (some ())).1 (by decide),
    (ensure_watching_idempotent (fun _ => .ok ()) DaemonState.new ["r"]
      (some ())).2 (by decide) 5⟩

/-- C10: `stop_watching` reports whether a watcher for the root was
present, removes exactly that watcher entry, and leaves both caches
(including all entries for queries under that root) unchanged. -/
theorem stop_watching_spec (s : DaemonState) (root : FsPath) :
    (stop_watching s root).1 = alContains s.root_watchers root ∧
    (stop_watching s root).2.file_cache = s.file_cache ∧
    (stop_watching s root).2.result_cache = s.result_cache ∧
    alGet (stop_watching s root).2.root_watchers root = none ∧
    ∀ r, r ≠ root →
      alGet (stop_watching s root).2.root_watchers r = alGet s.root_watchers r := by
  refine ⟨rfl, rfl, rfl, ?_, ?_⟩
  · rw [show (stop_watching s root).2.root_watchers = alRemove s.root_watchers root from rfl,
      alGet_alRemove]
    simp
  · intro r hr
    rw [show (stop_watching s root).2.root_watchers = alRemove s.root_watchers root from rfl,
      alGet_alRemove]
    simp [hr]

/-! ### The daemon `hash` operation (claims C2 and C6) -/

theorem start_watching_caches (install : FsPath → Except String Unit)
    (s : DaemonState) (root : FsPath) (tx : Option Unit) (s1 : DaemonState)
    (h : start_watching install s root tx = .ok s1) :
    s1.file_cache = s.file_cache ∧ s1.result_cache = s.result_cache := by
  unfold start_watching at h
  by_cases hc : alContains s.root_watchers root
  · rw [if_pos hc] at h
    cases h
    exact ⟨rfl, rfl⟩
  · rw [if_neg hc] at h
    cases tx with
    | none =>
      cases h
      exact ⟨rfl, rfl⟩
    | some u =>
      match hin : install root with
      | .ok _ =>
        rw [hin] at h
        cases h
        exact ⟨rfl, rfl⟩
      | .error e =>
        rw [hin] at h
        cases h

theorem start_watching_ok_watchers (install : FsPath → Except String Unit)
    (s : DaemonState) (root : FsPath) (tx : Option Unit) (s1 : DaemonState)
    (h : start_watching install s root tx = .ok s1) :
    alContains s1.root_watchers root = true ∨ tx = none := by
  unfold start_watching at h
  by_cases hc : alContains s.root_watchers root
  · rw [if_pos hc] at h
    cases h
    exact .inl hc
  · rw [if_neg hc] at h
    cases tx with
    | none => exact .inr rfl
    | some u =>
      match hin : install root with
      | .ok _ =>
        rw [hin] at h
        cases h
        left
        simp [alContains, alGet_alInsert]
      | .error e =>
        rw [hin] at h
        cases h

theorem start_watching_stable (install : FsPath → Except String Unit)
    (s : DaemonState) (root : FsPath) (tx : Option Unit)
    (h : alContains s.root_watchers root = true ∨ tx = none) :
    start_watching install s root tx = .ok s := by
  unfold start_watching
  by_cases hc : alContains s.root_watchers root
  · rw [if_pos hc]
  · rw [if_neg hc]
    rcases h with h | h
    · exact absurd h hc
    · rw [h]

/-- Anatomy of a successful `hash` call: the resulting state holds the
returned result in its result cache under the query's key, and, when
`persistent` was set, either a watcher for the root is installed or no
event sink was supplied. -/
theorem hash_ok_parts (env : FsEnv) (install : FsPath → Except String Unit)
    (s : DaemonState) (root path : FsPath) (glob : String)
    (persistent : Bool) (tx : Option Unit) (r : HashResult) (s' : DaemonState)
    (h : hash env install s root path glob persistent tx = (.ok r, s')) :
    alGet s'.result_cache ⟨root, path, glob⟩ = some r ∧
    (persistent = true → alContains s'.root_watchers root = true ∨ tx = none) := by
  unfold hash at h
  split at h
  · simp at h
  · rename_i s1 heq
    have hw1 : persistent = true → alContains s1.root_watchers root = true ∨ tx = none := by
      intro hp
      rw [hp, if_pos rfl] at heq
      exact start_watching_ok_watchers install s root tx s1 heq
    split at h
    · rename_i result hres
      rw [Prod.mk.injEq] at h
      obtain ⟨h1, h2⟩ := h
      cases h1
      subst h2
      exact ⟨hres, hw1⟩
    · rename_i hres
      split at h
      · rename_i result fc hcomp
        rw [Prod.mk.injEq] at h
        obtain ⟨h1, h2⟩ := h
        cases h1
        subst h2
        refine ⟨?_, hw1⟩
        simp [alGet_alInsert]
      · rename_i e fc hcomp
        simp at h

/-- A `hash` call against a state that already caches the query's
result and (when persistent) already satisfies the watcher condition
returns that result verbatim and leaves the state untouched, for ANY
filesystem environment and watcher installer. -/
theorem hash_hit_any (env : FsEnv) (install : FsPath → Except String Unit)
    (s' : DaemonState) (root path : FsPath) (glob : String)
    (persistent : Bool) (tx : Option Unit) (r : HashResult)
    (hres : alGet s'.result_cache ⟨root, path, glob⟩ = some r)
    (hw : persistent = true → alContains s'.root_watchers root = true ∨ tx = none) :
    hash env install s' root path glob persistent tx = (.ok r, s') := by
  have hstep : (if persistent then start_watching install s' root tx else .ok s') =
      .ok s' := by
    cases persistent with
    | false => rfl
    | true =>
      rw [if_pos rfl]
      exact start_watching_stable install s' root tx (hw rfl)
  unfold hash
  rw [hstep]
  split
  · rename_i e he
    cases he
  · rename_i s1 he
    injection he with he
    subst he
    split
    · rename_i result hgot
      rw [hres] at hgot
      injection hgot with hgot
      subst hgot
      rfl
    · rename_i hgot
      rw [hres] at hgot
      cases hgot

/-- C2: once `hash` has answered a query `(root, path, glob)` with
`Ok (h, n)`, repeating the same request against the resulting state —
with no intervening invalidation — returns exactly `Ok (h, n)` from
the `ResultCache` entry, without touching the state, the filesystem,
or the watcher installer (both are universally quantified in the
second call, so no file is read and nothing is recomputed). -/
theorem hash_second_call_cache_hit (env : FsEnv)
    (install : FsPath → Except String Unit) (s : DaemonState)
    (root path : FsPath) (glob : String) (persistent : Bool) (tx : Option Unit)
    (r : HashResult) (s' : DaemonState)
    (h : hash env install s root path glob persistent tx = (.ok r, s')) :
    ∀ (env₂ : FsEnv) (install₂ : FsPath → Except String Unit),
      hash env₂ install₂ s' root path glob persistent tx = (.ok r, s') := by
  intro env₂ install₂
  obtain ⟨hres, hw⟩ := hash_ok_parts env install s root path glob persistent tx r s' h
  exact hash_hit_any env₂ install₂ s' root path glob persistent tx r hres hw

/-- Witness for C2: a first call answered from a pre-populated result
cache, repeated against a completely different filesystem environment
and installer. -/
theorem hash_second_call_cache_hit_witness :
    hash ⟨fun _ => [], fun _ => none, fun _ => .error "gone", fun _ => 0⟩
        (fun _ => .error "no watcher") ⟨[], [(⟨["r"], [], "*"⟩, ⟨42, 2⟩)], []⟩
        ["r"] [] "*" false none =
      (.ok ⟨42, 2⟩, ⟨[], [(⟨["r"], [], "*"⟩, ⟨42, 2⟩)], []⟩) ∧
    hash ⟨fun _ => [⟨["r", "f"], true⟩], fun _ => some (fun _ => true),
          fun _ => .ok [1, 2], fun _ => 99⟩
        (fun _ => .ok ()) ⟨[], [(⟨["r"], [], "*"⟩, ⟨42, 2⟩)], []⟩
        ["r"] [] "*" false none =
      (.ok ⟨42, 2⟩, ⟨[], [(⟨["r"], [], "*"⟩, ⟨42, 2⟩)], []⟩) :=
  ⟨rfl,
    hash_second_call_cache_hit
      ⟨fun _ => [], fun _ => none, fun _ => .error "gone", fun _ => 0⟩
      (fun _ => .error "no watcher") ⟨[], [(⟨["r"], [], "*"⟩, ⟨42, 2⟩)], []⟩
      ["r"] [] "*" false none ⟨42, 2⟩ ⟨[], [(⟨["r"], [], "*"⟩, ⟨42, 2⟩)], []⟩ rfl
      ⟨fun _ => [⟨["r", "f"], true⟩], fun _ => some (fun _ => true),
        fun _ => .ok [1, 2], fun _ => 99⟩
      (fun _ => .ok ())⟩

theorem start_watching_error (install : FsPath → Except String Unit)
    (s : DaemonState) (root : FsPath) (tx : Option Unit) (e : HashError)
    (h : start_watching install s root tx = .error e) : ∃ msg, e = .Watch msg := by
  unfold start_watching at h
  by_cases hc : alContains s.root_watchers root
  · rw [if_pos hc] at h
    cases h
  · rw [if_neg hc] at h
    cases tx with
    | none => cases h
    | some u =>
      match hin : install root with
      | .ok _ =>
        rw [hin] at h
        cases h
      | .error msg =>
        rw [hin] at h
        injection h with h
        exact ⟨msg, h.symm⟩

theorem list_files_error_cases (env : FsEnv) (root path : FsPath) (g : String)
    (e : HashError) (h : list_files env root path g = .error e) :
    e = .GlobError g ∨ e = .NoFilesMatched := by
  unfold list_files at h
  split at h
  · injection h with h
    exact .inl h.symm
  · split at h
    · injection h with h
      exact .inr h.symm
    · cases h

/-- On a read failure, `hashFiles` reports exactly the failing file's
error, keeps every entry the cache already had, and has inserted an
entry for every file it processed before the failing one. -/
theorem hashFiles_error (env : FsEnv) (cache : FileCache) (files : List FsPath)
    (acc : List Nat) (p : FsPath) (cause : String) (cache' : FileCache)
    (h : hashFiles env cache files acc = (.error (.ReadFile p cause), cache')) :
    env.readFile p = .error cause ∧
    (∀ k v, alGet cache k = some v → alGet cache' k = some v) ∧
    ∃ pre post, files = pre ++ p :: post ∧ ∀ f ∈ pre, (alGet cache' f).isSome := by
  induction files generalizing cache acc with
  | nil =>
    unfold hashFiles at h
    simp at h
  | cons f rest ih =>
    unfold hashFiles at h
    split at h
    · rename_i h0 hget
      obtain ⟨h1, h2, pre, post, h3, h4⟩ := ih cache (h0 :: acc) h
      refine ⟨h1, h2, f :: pre, post, by rw [h3, List.cons_append], ?_⟩
      intro g hg
      rcases List.mem_cons.mp hg with rfl | hg
      · rw [h2 g h0 hget]
        rfl
      · exact h4 g hg
    · rename_i hget
      split at h
      · rename_i bytes hread
        obtain ⟨h1, h2, pre, post, h3, h4⟩ :=
          ih (alInsert cache f (env.xxh3 bytes)) (env.xxh3 bytes :: acc) h
        have hmono : ∀ k v, alGet cache k = some v →
            alGet (alInsert cache f (env.xxh3 bytes)) k = some v := by
          intro k v hk
          rw [alGet_alInsert]
          by_cases hkf : k = f
          · subst hkf
            rw [hget] at hk
            cases hk
          · rw [if_neg hkf]
            exact hk
        refine ⟨h1, fun k v hk => h2 k v (hmono k v hk), f :: pre, post,
          by rw [h3, List.cons_append], ?_⟩
        intro g hg
        rcases List.mem_cons.mp hg with rfl | hg
        · have hgf : alGet (alInsert cache g (env.xxh3 bytes)) g = some (env.xxh3 bytes) := by
            rw [alGet_alInsert, if_pos rfl]
          rw [h2 g _ hgf]
          rfl
        · exact h4 g hg
      · rename_i e hread
        rw [Prod.mk.injEq] at h
        obtain ⟨h1, h2⟩ := h
        injection h1 with h1
        injection h1 with hf hc
        subst hf
        subst hc
        subst h2
        exact ⟨hread, fun k v hk => hk, [], rest, rfl, by intro g hg; cases hg⟩

/-- On a read failure, `hash_with_cache` returns `ReadFile` with the
failing file and cause, retains every pre-existing cache entry, and
has cached every file enumerated before the failing one. -/
theorem hash_with_cache_readfile (env : FsEnv) (cache : FileCache)
    (root path : FsPath) (glob : String) (p : FsPath) (cause : String)
    (cache' : FileCache)
    (h : hash_with_cache env cache root path glob = (.error (.ReadFile p cause), cache')) :
    env.readFile p = .error cause ∧
    (∀ k v, alGet cache k = some v → alGet cache' k = some v) ∧
    ∃ files pre post, list_files env root path glob = .ok files ∧
      files = pre ++ p :: post ∧ ∀ f ∈ pre, (alGet cache' f).isSome := by
  unfold hash_with_cache at h
  split at h
  · rename_i e hlf
    rw [Prod.mk.injEq] at h
    obtain ⟨h1, h2⟩ := h
    injection h1 with h1
    rcases list_files_error_cases env root path glob e hlf with h3 | h3 <;>
      rw [h3] at h1 <;> cases h1
  · rename_i files hlf
    split at h
    · rename_i hashes c2 hrun
      simp at h
    · rename_i e2 c2 hrun
      rw [Prod.mk.injEq] at h
      obtain ⟨h1, h2⟩ := h
      injection h1 with h1
      rw [h1, h2] at hrun
      obtain ⟨h1, h2, pre, post, h3, h4⟩ :=
        hashFiles_error env cache files [] p cause cache' hrun
      exact ⟨h1, h2, files, pre, post, hlf, h3, h4⟩

/-- C6: if `hash` fails with `ReadFile {path, cause}`, that is the
failing file's own read error; no per-file cache entry present before
the call is removed; every file hashed before the failing one is in
the per-file cache of the resulting state; and the result cache is
left exactly as it was (no entry inserted for the query). -/
theorem hash_read_failure (env : FsEnv) (install : FsPath → Except String Unit)
    (s : DaemonState) (root path : FsPath) (glob : String)
    (persistent : Bool) (tx : Option Unit) (p : FsPath) (cause : String)
    (s' : DaemonState)
    (h : hash env install s root path glob persistent tx =
      (.error (.ReadFile p cause), s')) :
    env.readFile p = .error cause ∧
    (∀ k v, alGet s.file_cache k = some v → alGet s'.file_cache k = some v) ∧
    s'.result_cache = s.result_cache ∧
    ∃ files pre post, list_files env root path glob = .ok files ∧
      files = pre ++ p :: post ∧ ∀ f ∈ pre, (alGet s'.file_cache f).isSome := by
  unfold hash at h
  split at h
  · rename_i e hW
    rw [Prod.mk.injEq] at h
    obtain ⟨h1, h2⟩ := h
    injection h1 with h1
    exfalso
    by_cases hp : persistent = true
    · rw [hp, if_pos rfl] at hW
      obtain ⟨msg, hmsg⟩ := start_watching_error install s root tx e hW
      rw [hmsg] at h1
      cases h1
    · rw [if_neg hp] at hW
      cases hW
  · rename_i s1 heq
    have hcch : s1.file_cache = s.file_cache ∧ s1.result_cache = s.result_cache := by
      by_cases hp : persistent = true
      · rw [hp, if_pos rfl] at heq
        exact start_watching_caches install s root tx s1 heq
      · rw [if_neg hp] at heq
        injection heq with heq
        subst heq
        exact ⟨rfl, rfl⟩
    split at h
    · rename_i result hres
      simp at h
    · rename_i hres
      split at h
      · rename_i result fc hcomp
        simp at h
      · rename_i e2 fc hcomp
        rw [Prod.mk.injEq] at h
        obtain ⟨h1, h2⟩ := h
        injection h1 with h1
        subst h1
        subst h2
        obtain ⟨h1, h2, files, pre, post, h3, h4, h5⟩ :=
          hash_with_cache_readfile env s1.file_cache root path glob p cause fc hcomp
        refine ⟨h1, ?_, hcch.2, files, pre, post, h3, h4, h5⟩
        intro k v hk
        exact h2 k v (hcch.1 ▸ hk)

/-- Witness for C6: a walk of two files where reading the second
fails; the first file's freshly inserted cache entry survives and the
result cache stays empty. -/
theorem hash_read_failure_witness :
    hash
        ⟨fun _ => [⟨["r", "a"], true⟩, ⟨["r", "b"], true⟩],
          fun _ => some (fun _ => true),
          fun f => if f = ["r", "a"] then .ok [7] else .error "eio",
          fun _ => 5⟩
        (fun _ => .ok ()) DaemonState.new ["r"] [] "*" false none =
      (.error (.ReadFile ["r", "b"] "eio"),
        ⟨[(["r", "a"], 5)], [], []⟩) ∧
    FsEnv.readFile
      ⟨fun _ => [⟨["r", "a"], true⟩, ⟨["r", "b"], true⟩],
        fun _ => some (fun _ => true),
        fun f => if f = ["r", "a"] then .ok [7] else .error "eio",
        fun _ => 5⟩ ["r", "b"] = .error "eio" ∧
    (⟨[(["r", "a"], 5)], [], []⟩ : DaemonState).result_cache =
      DaemonState.new.result_cache :=
  ⟨rfl,
    (hash_read_failure
      ⟨fun _ => [⟨["r", "a"], true⟩, ⟨["r", "b"], true⟩],
        fun _ => some (fun _ => true),
        fun f => if f = ["r", "a"] then .ok [7] else .error "eio",
        fun _ => 5⟩
      (fun _ => .ok ()) DaemonState.new ["r"] [] "*" false none
      ["r", "b"] "eio" ⟨[(["r", "a"], 5)], [], []⟩ rfl).1,
    (hash_read_failure
      ⟨fun _ => [⟨["r", "a"], true⟩, ⟨["r", "b"], true⟩],
        fun _ => some (fun _ => true),
        fun f => if f = ["r", "a"] then .ok [7] else .error "eio",
        fun _ => 5⟩
      (fun _ => .ok ()) DaemonState.new ["r"] [] "*" false none
      ["r", "b"] "eio" ⟨[(["r", "a"], 5)], [], []⟩ rfl).2.2.1⟩

/-- Witness for C10 at a concrete state with a cached result under
the stopped root. -/
theorem stop_watching_spec_witness :
    (stop_watching
        ⟨[(["r", "f"], 3)], [(⟨["r"], [], "*"⟩, ⟨9, 1⟩)], [(["r"], ()), (["q"], ())]⟩
        ["r"]).1 = true ∧
    (stop_watching
        ⟨[(["r", "f"], 3)], [(⟨["r"], [], "*"⟩, ⟨9, 1⟩)], [(["r"], ()), (["q"], ())]⟩
        ["r"]).2.result_cache = [(⟨["r"], [], "*"⟩, ⟨9, 1⟩)] ∧
    alGet (stop_watching
        ⟨[(["r", "f"], 3)], [(⟨["r"], [], "*"⟩, ⟨9, 1⟩)], [(["r"], ()), (["q"], ())]⟩
        ["r"]).2.root_watchers ["q"] = some () := by
  refine ⟨?_, (stop_watching_spec _ _).2.2.1, ?_⟩
  · rw [(stop_watching_spec _ _).1]
    rfl
  · rw [(stop_watching_spec _ _).2.2.2.2 ["q"] (by decide)]
    rfl

/-! ### Subscription keys (`src/fswatchd/src/protocol.rs`) -/

/-- A lowercase hexadecimal digit character. -/
def hexDigitChar (d : Nat) : Char :=
  if d < 10 then Char.ofNat (48 + d) else Char.ofNat (87 + d)

/-- `format!("{:0wx}", n)` for width `w`: `w` lowercase hex digits,
most significant first, zero-padded. -/
def natToHex : Nat → Nat → List Char
  | 0, _ => []
  | w + 1, n => natToHex w (n / 16) ++ [hexDigitChar (n % 16)]

/-- The hashed pre-image `root || 0x00 || path || 0x00 || glob`
(UTF-8 bytes of `format!("{}\0{}\0{}", root, path, glob)`). -/
def keyPreimage (root path glob : String) : List Nat :=
  strBytes root ++ [0] ++ strBytes path ++ [0] ++ strBytes glob

/-- `make_subscription_key` from `protocol.rs`:
`format!("{:032x}", xxh3_128(...))` over the pre-image.  `xxh3_128` is
an external crate function, abstracted as a parameter; its 128-bit
range is made explicit by the truncation `% 2 ^ 128`. -/
def make_subscription_key (xxh3Wide : List Nat → Nat) (root path glob : String) : String :=
  ⟨natToHex 32 (xxh3Wide (keyPreimage root path glob) % 2 ^ 128)⟩

theorem natToHex_length (w : Nat) : ∀ n, (natToHex w n).length = w := by
  induction w with
  | zero => intro n; rfl
  | succ w ih => intro n; simp [natToHex, ih]

theorem hexDigitChar_inj : ∀ a < 16, ∀ b < 16, hexDigitChar a = hexDigitChar b → a = b := by
  decide

theorem natToHex_inj (w : Nat) :
    ∀ n < 16 ^ w, ∀ m < 16 ^ w, natToHex w n = natToHex w m → n = m := by
  induction w with
  | zero =>
    intro n hn m hm _
    simp only [pow_zero] at hn hm
    omega
  | succ w ih =>
    intro n hn m hm h
    unfold natToHex at h
    obtain ⟨h1, h2⟩ := List.append_inj h (by rw [natToHex_length, natToHex_length])
    have hd : n % 16 = m % 16 := by
      injection h2 with h2
      exact hexDigitChar_inj _ (Nat.mod_lt _ (by omega)) _ (Nat.mod_lt _ (by omega)) h2
    have hq : n / 16 = m / 16 := by
      apply ih
      · rw [Nat.div_lt_iff_lt_mul (by omega)]
        rw [← pow_succ]
        exact hn
      · rw [Nat.div_lt_iff_lt_mul (by omega)]
        rw [← pow_succ]
        exact hm
      · exact h1
    omega

theorem natToHex_mem_hex (w : Nat) :
    ∀ n, ∀ c ∈ natToHex w n, ∃ d, d < 16 ∧ c = hexDigitChar d := by
  induction w with
  | zero =>
    intro n c hc
    cases hc
  | succ w ih =>
    intro n c hc
    unfold natToHex at hc
    rcases List.mem_append.mp hc with hc | hc
    · exact ih _ c hc
    · rw [List.mem_singleton] at hc
      exact ⟨n % 16, Nat.mod_lt _ (by omega), hc⟩

theorem hexDigitChar_mem_alphabet : ∀ d < 16, hexDigitChar d ∈ "0123456789abcdef".data := by
  decide

theorem make_subscription_key_data (f : List Nat → Nat) (root path glob : String) :
    (make_subscription_key f root path glob).data =
      natToHex 32 (f (keyPreimage root path glob) % 2 ^ 128) := rfl

/-- C5: `make_subscription_key` is a pure function of exactly
`(root, path, glob)` and the hash function (it reads no other state,
so two invocations on one tuple agree by construction); the key it
returns has 32 characters, all lowercase hex digits; and, the hex
encoding being injective on 128-bit values, two tuples receive the
same key exactly when the 128-bit hash of their pre-images
`root || 0x00 || path || 0x00 || glob` coincide — distinct pre-images
map through the hash independently of any other state. -/
theorem make_subscription_key_spec (f : List Nat → Nat) (root path glob : String) :
    (make_subscription_key f root path glob).length = 32 ∧
    (∀ c ∈ (make_subscription_key f root path glob).data, c ∈ "0123456789abcdef".data) ∧
    (∀ root2 path2 glob2 : String,
      make_subscription_key f root path glob = make_subscription_key f root2 path2 glob2 ↔
      f (keyPreimage root path glob) % 2 ^ 128 =
        f (keyPreimage root2 path2 glob2) % 2 ^ 128) := by
  refine ⟨?_, ?_, ?_⟩
  · unfold make_subscription_key
    rw [String.length_mk]
    exact natToHex_length 32 _
  · intro c hc
    rw [make_subscription_key_data] at hc
    obtain ⟨d, hd, rfl⟩ := natToHex_mem_hex 32 _ c hc
    exact hexDigitChar_mem_alphabet d hd
  · intro root2 path2 glob2
    constructor
    · intro h
      have hdata := congrArg String.data h
      rw [make_subscription_key_data, make_subscription_key_data] at hdata
      have h16 : (16 : Nat) ^ 32 = 2 ^ 128 := by norm_num
      exact natToHex_inj 32 _ (h16 ▸ Nat.mod_lt _ (by positivity)) _
        (h16 ▸ Nat.mod_lt _ (by positivity)) hdata
    · intro h
      unfold make_subscription_key
      rw [h]

/-- Witness for C5: the key of a concrete tuple has the right shape,
its first character is a hex digit, and two tuples whose pre-images
collide under the (here: summing) hash receive the same key. -/
theorem make_subscription_key_spec_witness :
    (make_subscription_key List.sum "a" "b" "c").length = 32 ∧
    '0' ∈ "0123456789abcdef".data ∧
    make_subscription_key List.sum "ab" "" "" = make_subscription_key List.sum "ba" "" "" :=
  ⟨(make_subscription_key_spec List.sum "a" "b" "c").1,
    (make_subscription_key_spec List.sum "a" "b" "c").2.1 '0' (by decide),
    ((make_subscription_key_spec List.sum "ab" "" "").2.2 "ba" "" "").mpr (by decide)⟩

/-! ### Session and request dispatch (`src/fswatchd/src/session.rs`,
`src/fswatchd/src/server.rs`) -/

/-- `Request` from `protocol.rs` (the `cmd`-tagged union). -/
inductive Request where
  | hashCmd (root path glob : String) (persistent : Bool)
  | watch (root path glob : String)
  | unwatch (key : String)
deriving DecidableEq, Repr

/-- `Response` from `protocol.rs`. -/
inductive Response where
  | hashResp (hash : String) (file_count : Nat)
  | watchResp (key : String)
  | okResp (ok : Bool)
  | errorResp (error : String)
deriving DecidableEq, Repr

/-- `RequestResult` from `session.rs`. -/
inductive RequestResult where
  | response (r : Response)
  | subscribe (r : Response) (key : String)
  | unsubscribe (r : Response)
deriving DecidableEq, Repr

/-- Per-connection `Session`: its `HashSet<SubscriptionKey>`, modelled
as a duplicate-free list. -/
structure Session where
  subscriptions : List String
deriving DecidableEq, Repr

/-- `Session::new()`. -/
def Session.new : Session := ⟨[]⟩

/-- `HashSet::insert`. -/
def setInsert (s : List String) (k : String) : List String :=
  if s.contains k then s else k :: s

/-- `HashSet::remove`. -/
def setRemove (s : List String) (k : String) : List String :=
  s.filter (fun x => x ≠ k)

/-- `Session::should_receive_event`. -/
def should_receive_event (sess : Session) (key : String) : Bool :=
  sess.subscriptions.contains key

/-- The `SessionBackend` operations (implemented by `AppStateBackend`
in `server.rs`), abstracted as their outcomes. -/
structure Backend where
  hashOp : String → String → String → Bool → Except String (String × Nat)
  watchOp : String → String → String → Except String Unit

/-- `Session::process_request` from `session.rs`.  The `Unwatch` arm
is translated exactly as written there: it removes the key from the
session's own set and answers `{ok:true}`; it calls no backend
operation. -/
def process_request (b : Backend) (mkKey : String → String → String → String)
    (sess : Session) : Request → Session × RequestResult
  | .hashCmd root path glob persistent =>
    match b.hashOp root path glob persistent with
    | .ok (h, n) => (sess, .response (.hashResp h n))
    | .error e => (sess, .response (.errorResp e))
  | .watch root path glob =>
    match b.watchOp root path glob with
    | .error e => (sess, .response (.errorResp ("Failed to start watcher: " ++ e)))
    | .ok _ =>
      (⟨setInsert sess.subscriptions (mkKey root path glob)⟩,
        .subscribe (.watchResp (mkKey root path glob)) (mkKey root path glob))
  | .unwatch key =>
    (⟨setRemove sess.subscriptions key⟩, .unsubscribe (.okResp true))

/-- `WatchEntry` from `persistence.rs` (root kept as the raw string of
the request, as `register_subscription` stores it). -/
structure WatchEntry where
  root : String
  path : String
  glob : String
deriving DecidableEq, Repr

/-- The pieces of the shared `AppState` (server.rs) that the unwatch
claim concerns: daemon state (with the watcher map), the persisted
watch set, and the global subscription registry. -/
structure AppState where
  daemon : DaemonState
  persisted : List WatchEntry
  subscriptions : List (String × (String × String × String))
deriving DecidableEq, Repr

/-- `register_subscription` from `server.rs`: run for `Subscribe`
results; re-parses the request line and records the tuple under the
key when it is a `watch` request. -/
def register_subscription (app : AppState) (key : String) (req : Request) : AppState :=
  match req with
  | .watch root path glob =>
    { app with subscriptions := alInsert app.subscriptions key (root, path, glob) }
  | _ => app

/-- The per-request body of `handle_connection` in `server.rs`:
dispatch through `Session::process_request`, then act on the
`RequestResult` — `Subscribe` registers globally, `Response` and
`Unsubscribe` only send the response. -/
def handle_request (b : Backend) (mkKey : String → String → String → String)
    (app : AppState) (sess : Session) (req : Request) :
    AppState × Session × Response :=
  match process_request b mkKey sess req with
  | (sess', .response r) => (app, sess', r)
  | (sess', .subscribe r key) => (register_subscription app key req, sess', r)
  | (sess', .unsubscribe r) => (app, sess', r)

/-- C4 (code evaluated at the failing behaviour): processing
`unwatch{key}` removes the key from the issuing session's local set
and answers `{ok:true}`, but returns the shared state — global
`Subscriptions` registry, `PersistedState` watch entries, and the
daemon's `WatcherMap` — verbatim, for every state and key:
`Session::process_request`'s `Unwatch` arm never invokes any backend
operation, so `AppStateBackend::unwatch` (which does implement the
claimed removals in `server.rs`) is unreachable. -/
theorem unwatch_leaves_global_state (b : Backend)
    (mkKey : String → String → String → String)
    (app : AppState) (sess : Session) (key : String) :
    handle_request b mkKey app sess (.unwatch key) =
      (app, ⟨setRemove sess.subscriptions key⟩, .okResp true) := rfl

end FsHasher
